import Mathlib

/-!
Verification of the percentile-benchmarking and composite-scoring engine of
the startup-ai-analyst backend.

The definitions below are shallow embeddings of the Python functions in
src/backend/app/services/benchmarking_service.py,
src/backend/app/api/routes/benchmarks.py (which holds a textually identical
copy of the percentile ranker and performance rater) and
src/backend/app/services/ai_analyzer.py.

Python floats are modelled as exact rationals.  A Python ZeroDivisionError
is modelled as Option.none: each division of the source is guarded by the
exact condition under which Python would raise.  Python dictionaries that
are only read through .get / key lookup are modelled as association lists,
and Python truthiness of optional dict/list arguments is modelled by
explicit pattern matches.
-/

namespace StartupAnalyst

/-- Embedding of calculate_percentile_rank (routes/benchmarks.py, lines
307-319) and the identical BenchmarkingService._calculate_percentile_rank
(benchmarking_service.py, lines 161-180).  The source returns a float and
may raise ZeroDivisionError; here a raised error is the value none.  Each
denominator of the source is guarded by the exact zero test under which
Python raises; the first branch reproduces the source's explicit
"if p25 > 0 else 0.0" guard. -/
def calculate_percentile_rank (value p25 p50 p75 p90 : ℚ) : Option ℚ :=
  if value ≤ p25 then
    some (if 0 < p25 then 1/4 * (value / p25) else 0)
  else if value ≤ p50 then
    if p50 - p25 = 0 then none
    else some (1/4 + 1/4 * ((value - p25) / (p50 - p25)))
  else if value ≤ p75 then
    if p75 - p50 = 0 then none
    else some (1/2 + 1/4 * ((value - p50) / (p75 - p50)))
  else if value ≤ p90 then
    if p90 - p75 = 0 then none
    else some (3/4 + 3/20 * ((value - p75) / (p90 - p75)))
  else
    if p90 = 0 then none
    else some (9/10 + 1/10 * min 1 ((value - p90) / p90))

/-- Embedding of the RiskLevel enumeration (models/startup.py, lines
23-28). -/
inductive RiskLevel where
  | low
  | medium
  | high
  | critical
deriving DecidableEq, Repr

/-- Embedding of the RiskFlag model (models/startup.py, lines 108-114). -/
structure RiskFlag where
  flag_type : String
  severity : RiskLevel
  description : String
  evidence : Option String
  confidence : ℚ
deriving DecidableEq, Repr

/-- Per-flag penalty of AIAnalyzer._calculate_risk_penalty
(ai_analyzer.py, lines 350-362): the if/elif/elif/else ladder on
severity. -/
def riskSeverityPenalty (severity : RiskLevel) : ℚ :=
  match severity with
  | .critical => 15
  | .high => 10
  | .medium => 5
  | _ => 2

/-- Embedding of AIAnalyzer._calculate_risk_penalty (ai_analyzer.py, lines
350-362): the accumulator loop over the flags followed by the final
min(penalty, 30.0) cap. -/
def calculate_risk_penalty (risk_flags : List RiskFlag) : ℚ :=
  min (risk_flags.foldl (fun penalty risk =>
    penalty + riskSeverityPenalty risk.severity) 0) 30

/-- Embedding of the default_weights dict of AIAnalyzer._calculate_overall_score
(ai_analyzer.py, lines 287-294). -/
def default_weights : List (String × ℚ) :=
  [("financial_health", 0.25),
   ("market_opportunity", 0.20),
   ("team_strength", 0.20),
   ("traction", 0.15),
   ("product_technology", 0.10),
   ("competitive_position", 0.10)]

/-- Python dict.get(key, default) on an association list. -/
def weightsGet (weights : List (String × ℚ)) (key : String) (d : ℚ) : ℚ :=
  (weights.lookup key).getD d

/-- The source line "weights = custom_weightings or default_weights":
Python or-truthiness replaces both None and an empty dict by the
defaults. -/
def resolveWeights (custom_weightings : Option (List (String × ℚ))) :
    List (String × ℚ) :=
  match custom_weightings with
  | none => default_weights
  | some [] => default_weights
  | some weights => weights

/-- The component-score helpers of AIAnalyzer (ai_analyzer.py, lines
324-348) return fixed constants regardless of their data/insight
arguments. -/
def calculate_financial_score : ℚ := 75

def calculate_market_score : ℚ := 80

def calculate_team_score : ℚ := 85

def calculate_traction_score : ℚ := 70

def calculate_product_score : ℚ := 78

def calculate_competitive_score : ℚ := 72

/-- Embedding of the aggregation of AIAnalyzer._calculate_overall_score
(ai_analyzer.py, lines 296-319), parameterized over the six local
component-score variables of the source: the weighted sum using
weights.get with per-key defaults, minus the risk penalty, clamped by
max(0, min(100, overall_score)). -/
def calculate_overall_score_core (financial_score market_score team_score
    traction_score product_score competitive_score : ℚ)
    (custom_weightings : Option (List (String × ℚ)))
    (risk_flags : List RiskFlag) : ℚ :=
  let weights := resolveWeights custom_weightings
  let risk_penalty := calculate_risk_penalty risk_flags
  let overall_score :=
    (financial_score * weightsGet weights "financial_health" 0.25 +
     market_score * weightsGet weights "market_opportunity" 0.20 +
     team_score * weightsGet weights "team_strength" 0.20 +
     traction_score * weightsGet weights "traction" 0.15 +
     product_score * weightsGet weights "product_technology" 0.10 +
     competitive_score * weightsGet weights "competitive_position" 0.10)
    - risk_penalty
  max 0 (min 100 overall_score)

/-- AIAnalyzer._calculate_overall_score with the component scores the
source helpers actually produce. -/
def calculate_overall_score (custom_weightings : Option (List (String × ℚ)))
    (risk_flags : List RiskFlag) : ℚ :=
  calculate_overall_score_core calculate_financial_score
    calculate_market_score calculate_team_score calculate_traction_score
    calculate_product_score calculate_competitive_score
    custom_weightings risk_flags

/-- The weighted sum of the six components as a standalone expression
(the parenthesized sum of ai_analyzer.py, lines 310-316). -/
def weighted_sum (financial_score market_score team_score traction_score
    product_score competitive_score : ℚ) (weights : List (String × ℚ)) : ℚ :=
  financial_score * weightsGet weights "financial_health" 0.25 +
  market_score * weightsGet weights "market_opportunity" 0.20 +
  team_score * weightsGet weights "team_strength" 0.20 +
  traction_score * weightsGet weights "traction" 0.15 +
  product_score * weightsGet weights "product_technology" 0.10 +
  competitive_score * weightsGet weights "competitive_position" 0.10

/-- A critical risk flag used for concrete penalty evaluations. -/
def criticalFlag : RiskFlag :=
  { flag_type := "runway"
    severity := RiskLevel.critical
    description := "critical risk"
    evidence := none
    confidence := 1 }

/-- One row of the in-memory benchmark cache (benchmarking_service.py,
lines 44-77): a four-point distribution for a (sector, stage, metric). -/
structure BenchmarkRow where
  sector : String
  stage : String
  metric_name : String
  p25 : ℚ
  p50 : ℚ
  p75 : ℚ
  p90 : ℚ
  sample_size : ℕ
deriving DecidableEq, Repr

/-- The seed benchmark data of
BenchmarkingService._create_sample_benchmark_data
(benchmarking_service.py, lines 44-77). -/
def benchmark_cache : List BenchmarkRow :=
  [⟨"fintech", "seed", "revenue_growth_rate", 0.15, 0.30, 0.50, 0.75, 150⟩,
   ⟨"fintech", "seed", "customer_acquisition_cost", 50, 120, 200, 350, 145⟩,
   ⟨"fintech", "seed", "monthly_recurring_revenue", 25000, 75000, 150000, 300000, 120⟩,
   ⟨"fintech", "seed", "gross_margin", 0.45, 0.65, 0.80, 0.90, 180⟩,
   ⟨"fintech", "seed", "employee_count", 5, 12, 20, 35, 200⟩,
   ⟨"fintech", "series_a", "revenue_growth_rate", 0.25, 0.45, 0.70, 1.0, 120⟩,
   ⟨"fintech", "series_a", "customer_acquisition_cost", 80, 150, 250, 400, 115⟩,
   ⟨"fintech", "series_a", "monthly_recurring_revenue", 100000, 300000, 600000, 1200000, 100⟩,
   ⟨"healthtech", "seed", "revenue_growth_rate", 0.20, 0.35, 0.55, 0.80, 80⟩,
   ⟨"healthtech", "seed", "customer_acquisition_cost", 100, 200, 350, 500, 75⟩,
   ⟨"healthtech", "seed", "gross_margin", 0.50, 0.70, 0.85, 0.95, 90⟩,
   ⟨"ai_ml", "seed", "revenue_growth_rate", 0.30, 0.50, 0.80, 1.20, 60⟩,
   ⟨"ai_ml", "seed", "customer_acquisition_cost", 75, 150, 300, 500, 55⟩,
   ⟨"ai_ml", "seed", "gross_margin", 0.60, 0.75, 0.85, 0.95, 65⟩,
   ⟨"edtech", "seed", "revenue_growth_rate", 0.25, 0.40, 0.65, 0.90, 70⟩,
   ⟨"edtech", "seed", "customer_acquisition_cost", 30, 80, 150, 250, 68⟩,
   ⟨"edtech", "seed", "gross_margin", 0.55, 0.70, 0.80, 0.90, 72⟩,
   ⟨"saas", "seed", "revenue_growth_rate", 0.20, 0.35, 0.60, 0.85, 200⟩,
   ⟨"saas", "seed", "customer_acquisition_cost", 60, 120, 200, 300, 195⟩,
   ⟨"saas", "seed", "monthly_recurring_revenue", 20000, 60000, 120000, 250000, 180⟩,
   ⟨"saas", "seed", "gross_margin", 0.65, 0.75, 0.85, 0.92, 210⟩]

/-- Character fold behind pythonLower. -/
def lowerChars : List Char → List Char
  | [] => []
  | c :: cs => c.toLower :: lowerChars cs

/-- Python str.lower on the ASCII sector/stage strings this repository
feeds it. -/
def pythonLower (s : String) : String := ⟨lowerChars s.data⟩

/-- Embedding of BenchmarkingService.get_sector_benchmarks
(benchmarking_service.py, lines 84-109), parameterized over the cache state:
filter by lowercased sector and stage, then (only when the optional metric
list is truthy, i.e. present and nonempty) by metric name. -/
def get_sector_benchmarks (cache : List BenchmarkRow) (sector stage : String)
    (metrics : Option (List String)) : List BenchmarkRow :=
  let filtered := cache.filter (fun b =>
    b.sector == pythonLower sector && b.stage == pythonLower stage)
  match metrics with
  | none => filtered
  | some [] => filtered
  | some ms => filtered.filter (fun b => ms.contains b.metric_name)

/-- Character fold behind pythonTitle: uppercase an alphabetic character
following a non-alphabetic one, lowercase the rest, as str.title does for
the ASCII metric names of this repository. -/
def titleChars : Bool → List Char → List Char
  | _, [] => []
  | prevAlpha, c :: cs =>
    (if c.isAlpha then (if prevAlpha then c.toLower else c.toUpper) else c)
      :: titleChars c.isAlpha cs

/-- Python str.title on the ASCII strings this repository feeds it. -/
def pythonTitle (s : String) : String := ⟨titleChars false s.data⟩

/-- Embedding of the BenchmarkData record (models/startup.py, lines
117-125) as constructed by benchmark_startup (benchmarking_service.py,
lines 145-153), which always supplies every field. -/
structure BenchmarkData where
  metric_name : String
  startup_value : ℚ
  sector_median : ℚ
  sector_p75 : ℚ
  sector_p90 : ℚ
  percentile_rank : ℚ
  performance_rating : String
deriving DecidableEq, Repr

/-- Embedding of get_performance_rating (routes/benchmarks.py, lines
322-335) and the identical _get_performance_rating
(benchmarking_service.py, lines 182-194). -/
def get_performance_rating (percentile_rank : ℚ) : String :=
  if 0.9 ≤ percentile_rank then "Excellent"
  else if 0.75 ≤ percentile_rank then "Above Average"
  else if 0.5 ≤ percentile_rank then "Average"
  else if 0.25 ≤ percentile_rank then "Below Average"
  else "Poor"

/-- The metric loop of BenchmarkingService.benchmark_startup
(benchmarking_service.py, lines 125-153): for each supplied metric, the
first matching benchmark (next(...)) is used; a missing benchmark skips
the metric; a ZeroDivisionError inside the percentile ranker propagates
(none). -/
def benchmark_startup_loop (sector_benchmarks : List BenchmarkRow) :
    List (String × ℚ) → Option (List BenchmarkData)
  | [] => some []
  | m :: rest =>
    match sector_benchmarks.find? (fun b => b.metric_name == m.1) with
    | none => benchmark_startup_loop sector_benchmarks rest
    | some benchmark =>
      match calculate_percentile_rank m.2 benchmark.p25 benchmark.p50
          benchmark.p75 benchmark.p90 with
      | none => none
      | some percentile_rank =>
        (benchmark_startup_loop sector_benchmarks rest).map
          (fun results =>
            { metric_name := pythonTitle (m.1.replace "_" " ")
              startup_value := m.2
              sector_median := benchmark.p50
              sector_p75 := benchmark.p75
              sector_p90 := benchmark.p90
              percentile_rank := percentile_rank
              performance_rating :=
                get_performance_rating percentile_rank } :: results)

/-- Embedding of BenchmarkingService.benchmark_startup
(benchmarking_service.py, lines 111-159): the enclosing try/except turns
any exception (the ranker's ZeroDivisionError) into the empty result
list. -/
def benchmark_startup (cache : List BenchmarkRow)
    (startup_metrics : List (String × ℚ)) (sector stage : String) :
    List BenchmarkData :=
  match benchmark_startup_loop
      (get_sector_benchmarks cache sector stage none) startup_metrics with
  | some results => results
  | none => []

/-- The aggregate percentile of one startup, as computed identically in
compare_multiple_startups (benchmarking_service.py, line 265) and
get_peer_analysis (line 306): np.mean of the per-metric percentile ranks
when any benchmarks matched, else the neutral 0.5. -/
def overall_percentile (cache : List BenchmarkRow)
    (startup_metrics : List (String × ℚ)) (sector stage : String) : ℚ :=
  let benchmarks := benchmark_startup cache startup_metrics sector stage
  if benchmarks.isEmpty then 0.5
  else (benchmarks.map (fun b => b.percentile_rank)).sum / benchmarks.length

/-- The comparison_results entries of compare_multiple_startups
(benchmarking_service.py, lines 255-267) in dict insertion order: one
(startup_id, overall_percentile) pair per input startup. -/
def comparison_items (cache : List BenchmarkRow)
    (startups_data : List (String × List (String × ℚ)))
    (sector stage : String) : List (String × ℚ) :=
  startups_data.map (fun startup =>
    (startup.1, overall_percentile cache startup.2 sector stage))

/-- The comparison order of the sorted(...) call of
compare_multiple_startups (lines 270-274): descending by overall
percentile.  Insertion sort with this order is stable, exactly like
Python's sorted with reverse=True. -/
def percCmp (x y : String × ℚ) : Prop := y.2 ≤ x.2

instance : DecidableRel percCmp :=
  fun x y => inferInstanceAs (Decidable (y.2 ≤ x.2))

instance : IsTotal (String × ℚ) percCmp :=
  ⟨fun x y => le_total y.2 x.2⟩

instance : IsTrans (String × ℚ) percCmp :=
  ⟨fun _ _ _ hxy hyz => le_trans hyz hxy⟩

/-- The sorted_startups list of compare_multiple_startups (lines
270-274). -/
def sorted_startups (cache : List BenchmarkRow)
    (startups_data : List (String × List (String × ℚ)))
    (sector stage : String) : List (String × ℚ) :=
  (comparison_items cache startups_data sector stage).insertionSort percCmp

/-- The rank assigned at lines 277-278 of compare_multiple_startups:
enumerate position in the sorted order, 1-based, looked up by startup
identifier. -/
def startup_rank (cache : List BenchmarkRow)
    (startups_data : List (String × List (String × ℚ)))
    (sector stage : String) (startup_id : String) : ℕ :=
  (sorted_startups cache startups_data sector stage).findIdx
    (fun x => x.1 == startup_id) + 1

/-- C1: at a distribution's own percentile points p25 < p50 < p75 < p90 with
p25 > 0, the percentile ranker returns exactly 0.25, 0.50, 0.75 and 0.90. -/
theorem percentile_rank_at_percentile_points (p25 p50 p75 p90 : ℚ)
    (h0 : 0 < p25) (h1 : p25 < p50) (h2 : p50 < p75) (h3 : p75 < p90) :
    calculate_percentile_rank p25 p25 p50 p75 p90 = some (1/4) ∧
    calculate_percentile_rank p50 p25 p50 p75 p90 = some (1/2) ∧
    calculate_percentile_rank p75 p25 p50 p75 p90 = some (3/4) ∧
    calculate_percentile_rank p90 p25 p50 p75 p90 = some (9/10) := by
  refine ⟨?_, ?_, ?_, ?_⟩
  · rw [calculate_percentile_rank, if_pos le_rfl, if_pos h0,
      div_self (ne_of_gt h0)]
    norm_num
  · rw [calculate_percentile_rank, if_neg (not_le.mpr h1), if_pos le_rfl,
      if_neg (sub_ne_zero.mpr (ne_of_gt h1)),
      div_self (sub_ne_zero.mpr (ne_of_gt h1))]
    norm_num
  · rw [calculate_percentile_rank, if_neg (not_le.mpr (h1.trans h2)),
      if_neg (not_le.mpr h2), if_pos le_rfl,
      if_neg (sub_ne_zero.mpr (ne_of_gt h2)),
      div_self (sub_ne_zero.mpr (ne_of_gt h2))]
    norm_num
  · rw [calculate_percentile_rank,
      if_neg (not_le.mpr ((h1.trans h2).trans h3)),
      if_neg (not_le.mpr (h2.trans h3)), if_neg (not_le.mpr h3),
      if_pos le_rfl, if_neg (sub_ne_zero.mpr (ne_of_gt h3)),
      div_self (sub_ne_zero.mpr (ne_of_gt h3))]
    norm_num

/-- Witness for C1 on the seeded fintech/seed revenue_growth_rate
distribution {p25 = 0.15, p50 = 0.30, p75 = 0.50, p90 = 0.75}. -/
theorem percentile_rank_at_percentile_points_witness :
    (0:ℚ) < 0.15 ∧ (0.15:ℚ) < 0.30 ∧ (0.30:ℚ) < 0.50 ∧ (0.50:ℚ) < 0.75 ∧
    (calculate_percentile_rank 0.15 0.15 0.30 0.50 0.75 = some (1/4) ∧
     calculate_percentile_rank 0.30 0.15 0.30 0.50 0.75 = some (1/2) ∧
     calculate_percentile_rank 0.50 0.15 0.30 0.50 0.75 = some (3/4) ∧
     calculate_percentile_rank 0.75 0.15 0.30 0.50 0.75 = some (9/10)) :=
  ⟨by norm_num, by norm_num, by norm_num, by norm_num,
   percentile_rank_at_percentile_points 0.15 0.30 0.50 0.75
     (by norm_num) (by norm_num) (by norm_num) (by norm_num)⟩

/-- C2 (amended): for an ordered distribution with p90 > 0 and any raw value
strictly above p90, the ranker returns a rank in (0.90, 1], and the rank is
exactly 1 precisely when the value is at least twice p90. -/
theorem percentile_rank_above_p90 (p25 p50 p75 p90 v : ℚ)
    (h1 : p25 ≤ p50) (h2 : p50 ≤ p75) (h3 : p75 ≤ p90)
    (hp : 0 < p90) (hv : p90 < v) :
    ∃ r, calculate_percentile_rank v p25 p50 p75 p90 = some r ∧
      9/10 < r ∧ r ≤ 1 ∧ (r = 1 ↔ 2 * p90 ≤ v) := by
  have hp25 : p25 < v := lt_of_le_of_lt (h1.trans (h2.trans h3)) hv
  have hp50 : p50 < v := lt_of_le_of_lt (h2.trans h3) hv
  have hp75 : p75 < v := lt_of_le_of_lt h3 hv
  have hfrac : 0 < (v - p90) / p90 := div_pos (sub_pos.mpr hv) hp
  have hE : calculate_percentile_rank v p25 p50 p75 p90
      = some (9/10 + 1/10 * min 1 ((v - p90) / p90)) := by
    rw [calculate_percentile_rank, if_neg (not_le.mpr hp25),
      if_neg (not_le.mpr hp50), if_neg (not_le.mpr hp75),
      if_neg (not_le.mpr hv), if_neg (ne_of_gt hp)]
  refine ⟨_, hE, ?_, ?_, ?_⟩
  · have hm : 0 < min 1 ((v - p90) / p90) := lt_min one_pos hfrac
    linarith
  · have hm : min 1 ((v - p90) / p90) ≤ 1 := min_le_left _ _
    linarith
  · constructor
    · intro h
      have hm : min 1 ((v - p90) / p90) = 1 := by linarith
      have h1d : (1:ℚ) ≤ (v - p90) / p90 := min_eq_left_iff.mp hm
      have := (one_le_div hp).mp h1d
      linarith
    · intro h
      have h1d : (1:ℚ) ≤ (v - p90) / p90 := (one_le_div hp).mpr (by linarith)
      rw [min_eq_left h1d]
      ring

/-- Witness for C2 (amended) on the seeded fintech/seed revenue_growth_rate
distribution with raw value 1.5 = 2 × p90, where the rank saturates at 1. -/
theorem percentile_rank_above_p90_witness :
    (0.15:ℚ) ≤ 0.30 ∧ (0.30:ℚ) ≤ 0.50 ∧ (0.50:ℚ) ≤ 0.75 ∧
    (0:ℚ) < 0.75 ∧ (0.75:ℚ) < 1.5 ∧
    ∃ r, calculate_percentile_rank 1.5 0.15 0.30 0.50 0.75 = some r ∧
      9/10 < r ∧ r ≤ 1 ∧ (r = 1 ↔ 2 * 0.75 ≤ (1.5:ℚ)) :=
  ⟨by norm_num, by norm_num, by norm_num, by norm_num, by norm_num,
   percentile_rank_above_p90 0.15 0.30 0.50 0.75 1.5
     (by norm_num) (by norm_num) (by norm_num) (by norm_num) (by norm_num)⟩

/-- C2 counterexample: for the degenerate all-negative distribution
p25 = p50 = p75 = p90 = -2 and raw value -1 (which is above p90 and at least
2 × p90), the code returns rank 17/20 = 0.85, which neither lies in
(0.90, 1] nor equals 1, refuting the claim over arbitrary distributions. -/
theorem percentile_rank_above_p90_counterexample :
    (-2:ℚ) < -1 ∧ 2 * (-2:ℚ) ≤ -1 ∧
    calculate_percentile_rank (-1) (-2) (-2) (-2) (-2) = some (17/20) ∧
    ¬ ((9/10:ℚ) < 17/20) ∧ (17/20:ℚ) ≠ 1 := by
  refine ⟨by norm_num, by norm_num, ?_, by norm_num, by norm_num⟩
  rw [calculate_percentile_rank]
  norm_num [min_def]

/-- C3: the source's value-above-p90 branch has no zero guard on p90.  At
the degenerate all-zero distribution with raw value 1 it computes
(1 - 0) / 0 and raises ZeroDivisionError (modelled as none); with p90 = -3
it returns rank 23/30 which is below 0.90, not the clamped rank 1.0 the
specification requires for p90 at most 0. -/
theorem percentile_rank_division_fault :
    calculate_percentile_rank 1 0 0 0 0 = none ∧
    calculate_percentile_rank 1 (-3) (-3) (-3) (-3) = some (23/30) := by
  constructor
  · rw [calculate_percentile_rank]
    norm_num
  · rw [calculate_percentile_rank]
    norm_num [min_def]

/-- C4 (amended): for a raw value at most 0 against a distribution with
p25 > 0 the ranker returns 0.25 × (value / p25), which is at most 0 and is
exactly 0 only when the raw value itself is 0; for strictly negative values
the returned rank is strictly negative, not 0. -/
theorem percentile_rank_nonpositive_value (p25 p50 p75 p90 v : ℚ)
    (hv : v ≤ 0) (hp : 0 < p25) :
    calculate_percentile_rank v p25 p50 p75 p90 = some (1/4 * (v / p25)) ∧
    1/4 * (v / p25) ≤ 0 ∧ (1/4 * (v / p25) = 0 ↔ v = 0) := by
  have hvp : v ≤ p25 := hv.trans hp.le
  have hdiv : v / p25 ≤ 0 := div_nonpos_iff.mpr (Or.inr ⟨hv, hp.le⟩)
  refine ⟨?_, by linarith, ?_⟩
  · rw [calculate_percentile_rank, if_pos hvp, if_pos hp]
  · constructor
    · intro h
      have h0 : v / p25 = 0 := by linarith
      rcases div_eq_zero_iff.mp h0 with h1 | h1
      · exact h1
      · exact absurd h1 (ne_of_gt hp)
    · intro h
      rw [h, zero_div, mul_zero]

/-- Witness for C4 (amended): raw value -2 against the distribution
(1, 2, 3, 4) yields rank 0.25 × (-2 / 1) = -0.5. -/
theorem percentile_rank_nonpositive_value_witness :
    (-2:ℚ) ≤ 0 ∧ (0:ℚ) < 1 ∧
    (calculate_percentile_rank (-2) 1 2 3 4 = some (1/4 * ((-2) / 1)) ∧
     1/4 * ((-2:ℚ) / 1) ≤ 0 ∧ (1/4 * ((-2:ℚ) / 1) = 0 ↔ (-2:ℚ) = 0)) :=
  ⟨by norm_num, by norm_num,
   percentile_rank_nonpositive_value 1 2 3 4 (-2) (by norm_num) (by norm_num)⟩

/-- C4 counterexample: raw value -1 with p25 = 1 > 0 produces the strictly
negative rank -1/4, not the claimed rank 0. -/
theorem percentile_rank_nonpositive_value_counterexample :
    (-1:ℚ) ≤ 0 ∧ (0:ℚ) < 1 ∧
    calculate_percentile_rank (-1) 1 2 3 4 = some (-(1/4)) ∧
    (-(1/4):ℚ) ≠ 0 ∧ (-(1/4):ℚ) < 0 := by
  refine ⟨by norm_num, by norm_num, ?_, by norm_num, by norm_num⟩
  rw [calculate_percentile_rank]
  norm_num

/-- Branch characterization: values at most p25 take the first branch. -/
theorem cpr_eq_of_le_p25 (p25 p50 p75 p90 v : ℚ) (h : v ≤ p25) :
    calculate_percentile_rank v p25 p50 p75 p90
      = some (if 0 < p25 then 1/4 * (v / p25) else 0) := by
  rw [calculate_percentile_rank, if_pos h]

/-- Branch characterization: values in (p25, p50] take the second branch;
its denominator is nonzero because p25 < v ≤ p50 forces p25 < p50. -/
theorem cpr_eq_of_le_p50 (p25 p50 p75 p90 v : ℚ)
    (hgt : p25 < v) (hle : v ≤ p50) :
    calculate_percentile_rank v p25 p50 p75 p90
      = some (1/4 + 1/4 * ((v - p25) / (p50 - p25))) := by
  have hd : p50 - p25 ≠ 0 := sub_ne_zero.mpr (ne_of_gt (lt_of_lt_of_le hgt hle))
  rw [calculate_percentile_rank, if_neg (not_le.mpr hgt), if_pos hle,
    if_neg hd]

/-- Branch characterization: values in (p50, p75] (and above p25) take the
third branch. -/
theorem cpr_eq_of_le_p75 (p25 p50 p75 p90 v : ℚ)
    (h25 : p25 < v) (h50 : p50 < v) (hle : v ≤ p75) :
    calculate_percentile_rank v p25 p50 p75 p90
      = some (1/2 + 1/4 * ((v - p50) / (p75 - p50))) := by
  have hd : p75 - p50 ≠ 0 := sub_ne_zero.mpr (ne_of_gt (lt_of_lt_of_le h50 hle))
  rw [calculate_percentile_rank, if_neg (not_le.mpr h25),
    if_neg (not_le.mpr h50), if_pos hle, if_neg hd]

/-- Branch characterization: values in (p75, p90] take the fourth branch. -/
theorem cpr_eq_of_le_p90 (p25 p50 p75 p90 v : ℚ)
    (h25 : p25 < v) (h50 : p50 < v) (h75 : p75 < v) (hle : v ≤ p90) :
    calculate_percentile_rank v p25 p50 p75 p90
      = some (3/4 + 3/20 * ((v - p75) / (p90 - p75))) := by
  have hd : p90 - p75 ≠ 0 := sub_ne_zero.mpr (ne_of_gt (lt_of_lt_of_le h75 hle))
  rw [calculate_percentile_rank, if_neg (not_le.mpr h25),
    if_neg (not_le.mpr h50), if_neg (not_le.mpr h75), if_pos hle, if_neg hd]

/-- Branch characterization: values above every percentile take the last
branch, provided p90 is nonzero (otherwise the source raises). -/
theorem cpr_eq_of_gt_p90 (p25 p50 p75 p90 v : ℚ)
    (h25 : p25 < v) (h50 : p50 < v) (h75 : p75 < v) (h90 : p90 < v)
    (hp : p90 ≠ 0) :
    calculate_percentile_rank v p25 p50 p75 p90
      = some (9/10 + 1/10 * min 1 ((v - p90) / p90)) := by
  rw [calculate_percentile_rank, if_neg (not_le.mpr h25),
    if_neg (not_le.mpr h50), if_neg (not_le.mpr h75),
    if_neg (not_le.mpr h90), if_neg hp]

/-- Upper bound of the first branch: ranks of values at most p25 never
exceed 0.25. -/
theorem cpr_le_quarter (p25 p50 p75 p90 v r : ℚ) (h : v ≤ p25)
    (e : calculate_percentile_rank v p25 p50 p75 p90 = some r) : r ≤ 1/4 := by
  rw [cpr_eq_of_le_p25 _ _ _ _ _ h] at e
  injection e with e
  subst e
  split_ifs with hp
  · have hd : v / p25 ≤ 1 := (div_le_one hp).mpr h
    linarith
  · norm_num

/-- Upper bound for values at most p50: the rank never exceeds 0.50. -/
theorem cpr_le_half (p25 p50 p75 p90 v r : ℚ) (h : v ≤ p50)
    (e : calculate_percentile_rank v p25 p50 p75 p90 = some r) : r ≤ 1/2 := by
  rcases le_or_lt v p25 with h25 | h25
  · linarith [cpr_le_quarter p25 p50 p75 p90 v r h25 e]
  · rw [cpr_eq_of_le_p50 _ _ _ _ _ h25 h] at e
    injection e with e
    subst e
    have hden : (0:ℚ) < p50 - p25 := by linarith
    have hd : (v - p25) / (p50 - p25) ≤ 1 := (div_le_one hden).mpr (by linarith)
    linarith

/-- Upper bound for values at most p75: the rank never exceeds 0.75. -/
theorem cpr_le_threequarters (p25 p50 p75 p90 v r : ℚ) (h1 : p25 ≤ p50)
    (h : v ≤ p75)
    (e : calculate_percentile_rank v p25 p50 p75 p90 = some r) : r ≤ 3/4 := by
  rcases le_or_lt v p50 with h50 | h50
  · linarith [cpr_le_half p25 p50 p75 p90 v r h50 e]
  · rw [cpr_eq_of_le_p75 _ _ _ _ _ (by linarith) h50 h] at e
    injection e with e
    subst e
    have hden : (0:ℚ) < p75 - p50 := by linarith
    have hd : (v - p50) / (p75 - p50) ≤ 1 := (div_le_one hden).mpr (by linarith)
    linarith

/-- Upper bound for values at most p90: the rank never exceeds 0.90. -/
theorem cpr_le_ninetenths (p25 p50 p75 p90 v r : ℚ)
    (h1 : p25 ≤ p50) (h2 : p50 ≤ p75) (h : v ≤ p90)
    (e : calculate_percentile_rank v p25 p50 p75 p90 = some r) : r ≤ 9/10 := by
  rcases le_or_lt v p75 with h75 | h75
  · linarith [cpr_le_threequarters p25 p50 p75 p90 v r h1 h75 e]
  · rw [cpr_eq_of_le_p90 _ _ _ _ _ (by linarith) (by linarith) h75 h] at e
    injection e with e
    subst e
    have hden : (0:ℚ) < p90 - p75 := by linarith
    have hd : (v - p75) / (p90 - p75) ≤ 1 := (div_le_one hden).mpr (by linarith)
    linarith

/-- Lower bound above p90 (for positive p90): the rank is at least 0.90. -/
theorem cpr_ge_ninetenths (p25 p50 p75 p90 v r : ℚ)
    (h1 : p25 ≤ p50) (h2 : p50 ≤ p75) (h3 : p75 ≤ p90) (hp : 0 < p90)
    (h : p90 < v)
    (e : calculate_percentile_rank v p25 p50 p75 p90 = some r) : 9/10 ≤ r := by
  rw [cpr_eq_of_gt_p90 _ _ _ _ _ (by linarith) (by linarith) (by linarith) h
    (ne_of_gt hp)] at e
  injection e with e
  subst e
  have hfrac : 0 < (v - p90) / p90 := div_pos (by linarith) hp
  have hm : 0 < min 1 ((v - p90) / p90) := lt_min one_pos hfrac
  linarith

/-- Lower bound above p75: the rank is at least 0.75. -/
theorem cpr_ge_threequarters (p25 p50 p75 p90 v r : ℚ)
    (h1 : p25 ≤ p50) (h2 : p50 ≤ p75) (h3 : p75 ≤ p90) (hp : 0 < p90)
    (h : p75 < v)
    (e : calculate_percentile_rank v p25 p50 p75 p90 = some r) : 3/4 ≤ r := by
  rcases le_or_lt v p90 with h90 | h90
  · rw [cpr_eq_of_le_p90 _ _ _ _ _ (by linarith) (by linarith) h h90] at e
    injection e with e
    subst e
    have hden : (0:ℚ) < p90 - p75 := by linarith
    have hd : 0 ≤ (v - p75) / (p90 - p75) :=
      div_nonneg (by linarith) (by linarith)
    linarith
  · linarith [cpr_ge_ninetenths p25 p50 p75 p90 v r h1 h2 h3 hp h90 e]

/-- Lower bound above p50: the rank is at least 0.50. -/
theorem cpr_ge_half (p25 p50 p75 p90 v r : ℚ)
    (h1 : p25 ≤ p50) (h2 : p50 ≤ p75) (h3 : p75 ≤ p90) (hp : 0 < p90)
    (h : p50 < v)
    (e : calculate_percentile_rank v p25 p50 p75 p90 = some r) : 1/2 ≤ r := by
  rcases le_or_lt v p75 with h75 | h75
  · rw [cpr_eq_of_le_p75 _ _ _ _ _ (by linarith) h h75] at e
    injection e with e
    subst e
    have hd : 0 ≤ (v - p50) / (p75 - p50) :=
      div_nonneg (by linarith) (by linarith)
    linarith
  · linarith [cpr_ge_threequarters p25 p50 p75 p90 v r h1 h2 h3 hp h75 e]

/-- Lower bound above p25: the rank is at least 0.25. -/
theorem cpr_ge_quarter (p25 p50 p75 p90 v r : ℚ)
    (h1 : p25 ≤ p50) (h2 : p50 ≤ p75) (h3 : p75 ≤ p90) (hp : 0 < p90)
    (h : p25 < v)
    (e : calculate_percentile_rank v p25 p50 p75 p90 = some r) : 1/4 ≤ r := by
  rcases le_or_lt v p50 with h50 | h50
  · rw [cpr_eq_of_le_p50 _ _ _ _ _ h h50] at e
    injection e with e
    subst e
    have hd : 0 ≤ (v - p25) / (p50 - p25) :=
      div_nonneg (by linarith) (by linarith)
    linarith
  · linarith [cpr_ge_half p25 p50 p75 p90 v r h1 h2 h3 hp h50 e]

/-- C5 (amended): for a fixed ordered distribution whose p90 is positive,
the percentile ranker is monotonically non-decreasing in the raw value. -/
theorem percentile_rank_monotone (p25 p50 p75 p90 v1 v2 r1 r2 : ℚ)
    (h1 : p25 ≤ p50) (h2 : p50 ≤ p75) (h3 : p75 ≤ p90) (hp : 0 < p90)
    (hv : v1 ≤ v2)
    (e1 : calculate_percentile_rank v1 p25 p50 p75 p90 = some r1)
    (e2 : calculate_percentile_rank v2 p25 p50 p75 p90 = some r2) :
    r1 ≤ r2 := by
  rcases le_or_lt v2 p25 with c2 | c2
  · -- both values take the first branch
    rw [cpr_eq_of_le_p25 _ _ _ _ _ (hv.trans c2)] at e1
    rw [cpr_eq_of_le_p25 _ _ _ _ _ c2] at e2
    injection e1 with e1
    injection e2 with e2
    subst e1
    subst e2
    split_ifs with hpos
    · have hd : v1 / p25 ≤ v2 / p25 := (div_le_div_iff_of_pos_right hpos).mpr hv
      linarith
    · exact le_rfl
  · rcases le_or_lt v1 p25 with c1 | c1
    · -- v1 in the first branch, v2 strictly above p25
      have hu := cpr_le_quarter p25 p50 p75 p90 v1 r1 c1 e1
      have hl := cpr_ge_quarter p25 p50 p75 p90 v2 r2 h1 h2 h3 hp c2 e2
      linarith
    · rcases le_or_lt v2 p50 with d2 | d2
      · -- both values take the second branch
        rw [cpr_eq_of_le_p50 _ _ _ _ _ c1 (hv.trans d2)] at e1
        rw [cpr_eq_of_le_p50 _ _ _ _ _ c2 d2] at e2
        injection e1 with e1
        injection e2 with e2
        subst e1
        subst e2
        have hden : (0:ℚ) < p50 - p25 := by linarith
        have hd : (v1 - p25) / (p50 - p25) ≤ (v2 - p25) / (p50 - p25) :=
          (div_le_div_iff_of_pos_right hden).mpr (by linarith)
        linarith
      · rcases le_or_lt v1 p50 with d1 | d1
        · have hu := cpr_le_half p25 p50 p75 p90 v1 r1 d1 e1
          have hl := cpr_ge_half p25 p50 p75 p90 v2 r2 h1 h2 h3 hp d2 e2
          linarith
        · rcases le_or_lt v2 p75 with f2 | f2
          · -- both values take the third branch
            rw [cpr_eq_of_le_p75 _ _ _ _ _ c1 d1 (hv.trans f2)] at e1
            rw [cpr_eq_of_le_p75 _ _ _ _ _ c2 d2 f2] at e2
            injection e1 with e1
            injection e2 with e2
            subst e1
            subst e2
            have hden : (0:ℚ) < p75 - p50 := by linarith
            have hd : (v1 - p50) / (p75 - p50) ≤ (v2 - p50) / (p75 - p50) :=
              (div_le_div_iff_of_pos_right hden).mpr (by linarith)
            linarith
          · rcases le_or_lt v1 p75 with f1 | f1
            · have hu := cpr_le_threequarters p25 p50 p75 p90 v1 r1 h1 f1 e1
              have hl := cpr_ge_threequarters p25 p50 p75 p90 v2 r2
                h1 h2 h3 hp f2 e2
              linarith
            · rcases le_or_lt v2 p90 with g2 | g2
              · -- both values take the fourth branch
                rw [cpr_eq_of_le_p90 _ _ _ _ _ c1 d1 f1 (hv.trans g2)] at e1
                rw [cpr_eq_of_le_p90 _ _ _ _ _ c2 d2 f2 g2] at e2
                injection e1 with e1
                injection e2 with e2
                subst e1
                subst e2
                have hden : (0:ℚ) < p90 - p75 := by linarith
                have hd : (v1 - p75) / (p90 - p75) ≤ (v2 - p75) / (p90 - p75) :=
                  (div_le_div_iff_of_pos_right hden).mpr (by linarith)
                linarith
              · rcases le_or_lt v1 p90 with g1 | g1
                · have hu := cpr_le_ninetenths p25 p50 p75 p90 v1 r1
                    h1 h2 g1 e1
                  have hl := cpr_ge_ninetenths p25 p50 p75 p90 v2 r2
                    h1 h2 h3 hp g2 e2
                  linarith
                · -- both values take the last branch
                  rw [cpr_eq_of_gt_p90 _ _ _ _ _ c1 d1 f1 g1
                    (ne_of_gt hp)] at e1
                  rw [cpr_eq_of_gt_p90 _ _ _ _ _ c2 d2 f2 g2
                    (ne_of_gt hp)] at e2
                  injection e1 with e1
                  injection e2 with e2
                  subst e1
                  subst e2
                  have hd : (v1 - p90) / p90 ≤ (v2 - p90) / p90 :=
                    (div_le_div_iff_of_pos_right hp).mpr (by linarith)
                  have hm : min 1 ((v1 - p90) / p90)
                      ≤ min 1 ((v2 - p90) / p90) := min_le_min le_rfl hd
                  linarith

/-- Witness for C5 (amended) on the seeded fintech/seed revenue_growth_rate
distribution, comparing raw values 0.20 and 0.45. -/
theorem percentile_rank_monotone_witness :
    calculate_percentile_rank 0.20 0.15 0.30 0.50 0.75 = some (1/4 + 1/4 * ((0.20 - 0.15) / (0.30 - 0.15))) ∧
    calculate_percentile_rank 0.45 0.15 0.30 0.50 0.75 = some (1/2 + 1/4 * ((0.45 - 0.30) / (0.50 - 0.30))) ∧
    (1/4 + 1/4 * (((0.20:ℚ) - 0.15) / (0.30 - 0.15)))
      ≤ (1/2 + 1/4 * (((0.45:ℚ) - 0.30) / (0.50 - 0.30))) := by
  have e1 : calculate_percentile_rank 0.20 0.15 0.30 0.50 0.75
      = some (1/4 + 1/4 * ((0.20 - 0.15) / (0.30 - 0.15))) :=
    cpr_eq_of_le_p50 _ _ _ _ _ (by norm_num) (by norm_num)
  have e2 : calculate_percentile_rank 0.45 0.15 0.30 0.50 0.75
      = some (1/2 + 1/4 * ((0.45 - 0.30) / (0.50 - 0.30))) :=
    cpr_eq_of_le_p75 _ _ _ _ _ (by norm_num) (by norm_num) (by norm_num)
  exact ⟨e1, e2,
    percentile_rank_monotone 0.15 0.30 0.50 0.75 0.20 0.45 _ _
      (by norm_num) (by norm_num) (by norm_num) (by norm_num) (by norm_num)
      e1 e2⟩

/-- C5 counterexample: for the ordered degenerate distribution
p25 = p50 = p75 = p90 = -4, raising the raw value from -2 to 4 lowers the
returned rank from 17/20 to 7/10, so the ranker is not monotone over
arbitrary ordered distributions. -/
theorem percentile_rank_monotone_counterexample :
    (-2:ℚ) ≤ 4 ∧
    calculate_percentile_rank (-2) (-4) (-4) (-4) (-4) = some (17/20) ∧
    calculate_percentile_rank 4 (-4) (-4) (-4) (-4) = some (7/10) ∧
    ¬ ((17/20:ℚ) ≤ 7/10) := by
  refine ⟨by norm_num, ?_, ?_, by norm_num⟩
  · rw [calculate_percentile_rank]
    norm_num [min_def]
  · rw [calculate_percentile_rank]
    norm_num [min_def]

/-- C6: for every choice of component scores, weight mapping and risk
flags, the overall score is exactly the clamp of (weighted sum − risk
penalty) into [0,100], and in particular always lies within [0,100]. -/
theorem overall_score_clamped (financial_score market_score team_score
    traction_score product_score competitive_score : ℚ)
    (custom_weightings : Option (List (String × ℚ)))
    (risk_flags : List RiskFlag) :
    calculate_overall_score_core financial_score market_score team_score
        traction_score product_score competitive_score custom_weightings
        risk_flags
      = max 0 (min 100 (weighted_sum financial_score market_score team_score
          traction_score product_score competitive_score
          (resolveWeights custom_weightings)
          - calculate_risk_penalty risk_flags)) ∧
    0 ≤ calculate_overall_score_core financial_score market_score team_score
        traction_score product_score competitive_score custom_weightings
        risk_flags ∧
    calculate_overall_score_core financial_score market_score team_score
        traction_score product_score competitive_score custom_weightings
        risk_flags ≤ 100 := by
  refine ⟨rfl, le_max_left _ _, ?_⟩
  rw [calculate_overall_score_core]
  exact max_le (by norm_num) ((min_le_left _ _))

/-- C7 counterexample: with the nonempty custom weight mapping
{market_opportunity: 1} and no risk flags, the missing financial_health
component is weighted by its default 0.25 (not 0) and the overall score is
100, whereas weight 0 for every missing component would have produced
80 × 1 = 80. -/
theorem missing_weight_counterexample :
    weightsGet [("market_opportunity", 1)] "financial_health" 0.25 = 0.25 ∧
    calculate_overall_score (some [("market_opportunity", 1)]) [] = 100 ∧
    (100:ℚ) ≠ 80 := by
  refine ⟨rfl, ?_, by norm_num⟩
  have hres : resolveWeights (some [("market_opportunity", (1:ℚ))])
      = [("market_opportunity", 1)] := rfl
  have e1 : weightsGet [("market_opportunity", (1:ℚ))]
      "financial_health" 0.25 = 0.25 := rfl
  have e2 : weightsGet [("market_opportunity", (1:ℚ))]
      "market_opportunity" 0.20 = 1 := rfl
  have e3 : weightsGet [("market_opportunity", (1:ℚ))]
      "team_strength" 0.20 = 0.20 := rfl
  have e4 : weightsGet [("market_opportunity", (1:ℚ))]
      "traction" 0.15 = 0.15 := rfl
  have e5 : weightsGet [("market_opportunity", (1:ℚ))]
      "product_technology" 0.10 = 0.10 := rfl
  have e6 : weightsGet [("market_opportunity", (1:ℚ))]
      "competitive_position" 0.10 = 0.10 := rfl
  have hpen : calculate_risk_penalty [] = 0 := by
    rw [calculate_risk_penalty]
    simp only [List.foldl_nil]
    exact min_eq_left (by norm_num)
  simp only [calculate_overall_score, calculate_overall_score_core, hres,
    e1, e2, e3, e4, e5, e6, hpen, calculate_financial_score,
    calculate_market_score, calculate_team_score, calculate_traction_score,
    calculate_product_score, calculate_competitive_score]
  norm_num [min_def, max_def]

/-- C7 (amended): a nonempty custom weight mapping is used as-is, the
overall score being the clamp of the weighted sum read through weightsGet
over that mapping, where each of the six components, when missing from the
mapping, is weighted by its own per-component default (financial_health
0.25, market_opportunity 0.20, team_strength 0.20, traction 0.15,
product_technology 0.10, competitive_position 0.10) rather than 0; and an
absent (None) or empty custom mapping is replaced wholesale by the default
weights: the score equals the one computed with default_weights supplied
explicitly. -/
theorem missing_weight_uses_default (financial_score market_score team_score
    traction_score product_score competitive_score : ℚ)
    (w : List (String × ℚ)) (risk_flags : List RiskFlag)
    (hne : w ≠ []) :
    calculate_overall_score_core financial_score market_score team_score
        traction_score product_score competitive_score (some w) risk_flags
      = max 0 (min 100 (weighted_sum financial_score market_score team_score
          traction_score product_score competitive_score w
          - calculate_risk_penalty risk_flags)) ∧
    (w.lookup "financial_health" = none →
      weightsGet w "financial_health" 0.25 = 0.25) ∧
    (w.lookup "market_opportunity" = none →
      weightsGet w "market_opportunity" 0.20 = 0.20) ∧
    (w.lookup "team_strength" = none →
      weightsGet w "team_strength" 0.20 = 0.20) ∧
    (w.lookup "traction" = none →
      weightsGet w "traction" 0.15 = 0.15) ∧
    (w.lookup "product_technology" = none →
      weightsGet w "product_technology" 0.10 = 0.10) ∧
    (w.lookup "competitive_position" = none →
      weightsGet w "competitive_position" 0.10 = 0.10) ∧
    calculate_overall_score_core financial_score market_score team_score
        traction_score product_score competitive_score none risk_flags
      = calculate_overall_score_core financial_score market_score team_score
          traction_score product_score competitive_score
          (some default_weights) risk_flags ∧
    calculate_overall_score_core financial_score market_score team_score
        traction_score product_score competitive_score (some []) risk_flags
      = calculate_overall_score_core financial_score market_score team_score
          traction_score product_score competitive_score
          (some default_weights) risk_flags := by
  have hres : resolveWeights (some w) = w := by
    cases w with
    | nil => exact absurd rfl hne
    | cons x xs => rfl
  refine ⟨?_, ?_, ?_, ?_, ?_, ?_, ?_, rfl, rfl⟩
  · rw [calculate_overall_score_core, hres, weighted_sum]
  all_goals
    intro hmiss
    rw [weightsGet, hmiss]
    rfl

/-- Witness for C7 (amended): with the nonempty custom mapping
{market_opportunity: 1}, the source's component scores and no risk flags,
the score is the clamp of the weighted sum over that mapping, and the
missing financial_health component is weighted by its default 0.25. -/
theorem missing_weight_uses_default_witness :
    ([("market_opportunity", (1:ℚ))] ≠ []) ∧
    (calculate_overall_score_core 75 80 85 70 78 72
        (some [("market_opportunity", 1)]) []
      = max 0 (min 100 (weighted_sum 75 80 85 70 78 72
          [("market_opportunity", 1)] - calculate_risk_penalty []))) ∧
    ([("market_opportunity", (1:ℚ))].lookup "financial_health" = none →
      weightsGet [("market_opportunity", (1:ℚ))] "financial_health" 0.25
        = 0.25) ∧
    (calculate_overall_score_core 75 80 85 70 78 72 none []
       = calculate_overall_score_core 75 80 85 70 78 72
           (some default_weights) []) ∧
    (calculate_overall_score_core 75 80 85 70 78 72 (some []) []
       = calculate_overall_score_core 75 80 85 70 78 72
           (some default_weights) []) :=
  ⟨by simp,
   (missing_weight_uses_default 75 80 85 70 78 72
     [("market_opportunity", 1)] [] (by simp)).1,
   (missing_weight_uses_default 75 80 85 70 78 72
     [("market_opportunity", 1)] [] (by simp)).2.1,
   (missing_weight_uses_default 75 80 85 70 78 72
     [("market_opportunity", 1)] [] (by simp)).2.2.2.2.2.2.2.1,
   (missing_weight_uses_default 75 80 85 70 78 72
     [("market_opportunity", 1)] [] (by simp)).2.2.2.2.2.2.2.2⟩

/-- The foldl accumulator of the risk-penalty loop equals the list sum of
the per-flag penalties. -/
theorem risk_penalty_foldl_eq_sum (risk_flags : List RiskFlag) (a : ℚ) :
    risk_flags.foldl (fun penalty risk =>
        penalty + riskSeverityPenalty risk.severity) a
      = a + (risk_flags.map (fun risk =>
          riskSeverityPenalty risk.severity)).sum := by
  induction risk_flags generalizing a with
  | nil => simp
  | cons x xs ih =>
    simp only [List.foldl_cons, List.map_cons, List.sum_cons, ih]
    ring

/-- C8: the risk penalty is the sum over the flags of 15 for critical, 10
for high, 5 for medium and 2 for every other severity, capped at 30; in
particular three critical flags yield exactly 30, not 45. -/
theorem risk_penalty_capped_sum (risk_flags : List RiskFlag) :
    calculate_risk_penalty risk_flags
      = min ((risk_flags.map (fun risk =>
          riskSeverityPenalty risk.severity)).sum) 30 ∧
    riskSeverityPenalty RiskLevel.critical = 15 ∧
    riskSeverityPenalty RiskLevel.high = 10 ∧
    riskSeverityPenalty RiskLevel.medium = 5 ∧
    riskSeverityPenalty RiskLevel.low = 2 ∧
    calculate_risk_penalty [criticalFlag, criticalFlag, criticalFlag] = 30 := by
  refine ⟨?_, rfl, rfl, rfl, rfl, ?_⟩
  · rw [calculate_risk_penalty, risk_penalty_foldl_eq_sum]
    norm_num
  · rw [calculate_risk_penalty]
    norm_num [criticalFlag, riskSeverityPenalty]

/-- When none of a startup's metrics has a matching benchmark, the metric
loop produces the empty benchmark list. -/
theorem benchmark_startup_loop_no_match (sector_benchmarks : List BenchmarkRow) :
    ∀ (startup_metrics : List (String × ℚ)),
      (∀ m ∈ startup_metrics,
        sector_benchmarks.find? (fun b => b.metric_name == m.1) = none) →
      benchmark_startup_loop sector_benchmarks startup_metrics = some [] := by
  intro startup_metrics
  induction startup_metrics with
  | nil => intro _; rfl
  | cons m rest ih =>
    intro h
    have hm := h m (List.mem_cons_self m rest)
    rw [benchmark_startup_loop, hm]
    exact ih (fun x hx => h x (List.mem_cons_of_mem m hx))

/-- C9: a startup none of whose supplied metrics matches a benchmark
distribution receives the aggregate percentile exactly 0.5 — a neutral
value rather than an error, NaN or 0. -/
theorem no_matching_metrics_neutral (cache : List BenchmarkRow)
    (startup_metrics : List (String × ℚ)) (sector stage : String)
    (h : ∀ m ∈ startup_metrics,
      (get_sector_benchmarks cache sector stage none).find?
        (fun b => b.metric_name == m.1) = none) :
    overall_percentile cache startup_metrics sector stage = 0.5 ∧
    (0.5:ℚ) ≠ 0 := by
  have hbs : benchmark_startup cache startup_metrics sector stage = [] := by
    rw [benchmark_startup,
      benchmark_startup_loop_no_match _ startup_metrics h]
  rw [overall_percentile, hbs]
  norm_num

/-- Witness for C9: the metric team_size has no fintech/seed benchmark in
the seeded cache, so a startup supplying only team_size gets aggregate
percentile 0.5. -/
theorem no_matching_metrics_neutral_witness :
    (∀ m ∈ [(("team_size" : String), (10:ℚ))],
      (get_sector_benchmarks benchmark_cache "fintech" "seed" none).find?
        (fun b => b.metric_name == m.1) = none) ∧
    (overall_percentile benchmark_cache [("team_size", 10)] "fintech" "seed"
        = 0.5 ∧ (0.5:ℚ) ≠ 0) :=
  ⟨by decide,
   no_matching_metrics_neutral benchmark_cache [("team_size", 10)]
     "fintech" "seed" (by decide)⟩

/-- Inserting an element never disturbs the existing elements: the original
list is a sublist of the result. -/
theorem sublist_orderedInsert (x : String × ℚ) :
    ∀ l : List (String × ℚ), List.Sublist l (List.orderedInsert percCmp x l)
  | [] => List.nil_sublist _
  | y :: ys => by
    rw [List.orderedInsert]
    split_ifs with h
    · exact List.sublist_cons_self x (y :: ys)
    · exact List.Sublist.cons₂ y (sublist_orderedInsert x ys)

/-- An inserted element lands before every stored element whose key is at
most its own: stability of one insertion step. -/
theorem pair_sublist_orderedInsert (x b : String × ℚ) (hb : b.2 ≤ x.2) :
    ∀ l : List (String × ℚ), b ∈ l →
      List.Sublist [x, b] (List.orderedInsert percCmp x l)
  | [], hmem => absurd hmem (List.not_mem_nil b)
  | y :: ys, hmem => by
    rw [List.orderedInsert]
    split_ifs with h
    · exact List.Sublist.cons₂ x (List.singleton_sublist.mpr hmem)
    · rcases List.mem_cons.mp hmem with hby | hby
      · exact absurd (hby ▸ hb) h
      · exact List.Sublist.cons y (pair_sublist_orderedInsert x b hb ys hby)

/-- Stability of the insertion sort modelling Python's sorted with
reverse=True: a pair of elements whose input order already agrees with the
(non-strict) comparison keeps its relative order in the sorted output; for
equal keys this is exactly the first-seen-wins tie-break. -/
theorem pair_sublist_insertionSort (a b : String × ℚ) (hle : b.2 ≤ a.2) :
    ∀ l : List (String × ℚ), List.Sublist [a, b] l →
      List.Sublist [a, b] (List.insertionSort percCmp l) := by
  intro l
  induction l with
  | nil =>
    intro hsub
    exact absurd (List.sublist_nil.mp hsub) (by simp)
  | cons x xs ih =>
    intro hsub
    rw [List.insertionSort]
    cases hsub with
    | cons _ hsub =>
      exact (ih hsub).trans (sublist_orderedInsert x (List.insertionSort percCmp xs))
    | cons₂ _ hsub =>
      have hbmem : b ∈ List.insertionSort percCmp xs :=
        (List.mem_insertionSort percCmp).mpr (hsub.subset (List.mem_cons_self b []))
      exact pair_sublist_orderedInsert a b hle _ hbmem

/-- In a list whose identifiers are distinct, the first element of an
embedded pair is found strictly before the second. -/
theorem findIdx_lt_of_pair_sublist (a b : String × ℚ) :
    ∀ s : List (String × ℚ), List.Sublist [a, b] s → (s.map Prod.fst).Nodup →
      s.findIdx (fun x => x.1 == a.1) < s.findIdx (fun x => x.1 == b.1) := by
  intro s
  induction s with
  | nil =>
    intro hsub _
    exact absurd (List.sublist_nil.mp hsub) (by simp)
  | cons x t ih =>
    intro hsub hnd
    have hnd' : (t.map Prod.fst).Nodup := (List.nodup_cons.mp (by simpa using hnd)).2
    have hxnot : x.1 ∉ t.map Prod.fst := (List.nodup_cons.mp (by simpa using hnd)).1
    cases hsub with
    | cons _ hsub =>
      have hamem : a ∈ t := hsub.subset (List.mem_cons_self a [b])
      have hbmem : b ∈ t := hsub.subset (by simp)
      have hxa : (x.1 == a.1) = false := by
        rw [beq_eq_false_iff_ne]
        intro hcontra
        exact hxnot (hcontra ▸ List.mem_map_of_mem Prod.fst hamem)
      have hxb : (x.1 == b.1) = false := by
        rw [beq_eq_false_iff_ne]
        intro hcontra
        exact hxnot (hcontra ▸ List.mem_map_of_mem Prod.fst hbmem)
      rw [List.findIdx_cons, List.findIdx_cons, hxa, hxb]
      simpa using Nat.succ_lt_succ (ih hsub hnd')
    | cons₂ _ hsub =>
      have hbmem : b ∈ t := hsub.subset (List.mem_cons_self b [])
      have hab : (a.1 == b.1) = false := by
        rw [beq_eq_false_iff_ne]
        intro hcontra
        exact hxnot (hcontra ▸ List.mem_map_of_mem Prod.fst hbmem)
      rw [List.findIdx_cons, List.findIdx_cons, hab]
      simp

/-- C10: the peer comparator sorts descending by aggregate percentile
(the output is sorted for the reverse comparison) and, for startups with
distinct identifiers, a tie in aggregate percentile is resolved in favor
of the startup appearing earlier in the input sequence, which receives the
strictly smaller 1-based rank. -/
theorem peer_ranking_stable_tiebreak (cache : List BenchmarkRow)
    (startups_data : List (String × List (String × ℚ)))
    (sector stage : String) (a b : String × List (String × ℚ))
    (hnd : (startups_data.map Prod.fst).Nodup)
    (hsub : List.Sublist [a, b] startups_data)
    (heq : overall_percentile cache a.2 sector stage
         = overall_percentile cache b.2 sector stage) :
    (sorted_startups cache startups_data sector stage).Sorted percCmp ∧
    startup_rank cache startups_data sector stage a.1
      < startup_rank cache startups_data sector stage b.1 := by
  constructor
  · exact List.sorted_insertionSort percCmp _
  · have hsubi : List.Sublist
        [(a.1, overall_percentile cache a.2 sector stage),
         (b.1, overall_percentile cache b.2 sector stage)]
        (comparison_items cache startups_data sector stage) :=
      hsub.map (fun startup : String × List (String × ℚ) =>
        (startup.1, overall_percentile cache startup.2 sector stage))
    have hstable := pair_sublist_insertionSort
      (a.1, overall_percentile cache a.2 sector stage)
      (b.1, overall_percentile cache b.2 sector stage)
      (le_of_eq heq.symm) _ hsubi
    have hperm : List.Perm
        (sorted_startups cache startups_data sector stage)
        (comparison_items cache startups_data sector stage) :=
      List.perm_insertionSort percCmp _
    have hmapfst : (comparison_items cache startups_data sector stage).map
        Prod.fst = startups_data.map Prod.fst := by
      rw [comparison_items, List.map_map]
      rfl
    have hndsorted : ((sorted_startups cache startups_data sector
        stage).map Prod.fst).Nodup := by
      refine (List.Perm.nodup_iff (List.Perm.map Prod.fst hperm)).mpr ?_
      rw [hmapfst]
      exact hnd
    have := findIdx_lt_of_pair_sublist
      (a.1, overall_percentile cache a.2 sector stage)
      (b.1, overall_percentile cache b.2 sector stage)
      (sorted_startups cache startups_data sector stage)
      hstable hndsorted
    exact Nat.succ_lt_succ this

/-- Witness for C10: two startups alpha and beta, neither of which has any
benchmarked metric, tie at aggregate percentile 0.5; alpha, listed first,
receives rank 1 and beta rank 2. -/
theorem peer_ranking_stable_tiebreak_witness :
    (([("alpha", ([] : List (String × ℚ))), ("beta", [])].map Prod.fst).Nodup) ∧
    (overall_percentile benchmark_cache [] "fintech" "seed"
       = overall_percentile benchmark_cache [] "fintech" "seed") ∧
    ((sorted_startups benchmark_cache [("alpha", []), ("beta", [])]
        "fintech" "seed").Sorted percCmp ∧
     startup_rank benchmark_cache [("alpha", []), ("beta", [])]
        "fintech" "seed" "alpha"
       < startup_rank benchmark_cache [("alpha", []), ("beta", [])]
        "fintech" "seed" "beta") :=
  ⟨by decide, rfl,
   peer_ranking_stable_tiebreak benchmark_cache
     [("alpha", []), ("beta", [])] "fintech" "seed"
     ("alpha", []) ("beta", []) (by decide)
     (List.Sublist.refl _) rfl⟩

end StartupAnalyst

